import Mathlib

/-!
Verification of the tar-over-zstd packer/unpacker in `main.go` of the
go-zstd-compressor repository.

The Go string functions are shallowly embedded over `List Char`.  The host
platform for filesystem joins and extraction is modelled as POSIX (path
separator `/`, `filepath.FromSlash` is the identity, `filepath.ToSlash` is
the identity); the Windows-only branches of the two sanitizers are modelled
through an explicit `isWindows` flag so statements about a Windows host can
be made at the string level.  The compression codec is a byte-stream black
box and is not modelled: the tar entry list written by the packer is handed
to the unpacker directly, which is exactly what the codec round-trip does.
Filesystem side effects are modelled as explicit state (an association list
of files, a list of created directories, a counter).
-/

set_option maxHeartbeats 1000000

namespace ZstdComp

/-- Go strings, as lists of characters. -/
abbrev GoStr := List Char

/-- `strings.TrimLeft(path, "/\\")`: drop every leading slash or backslash. -/
def trimLeftSlashes (p : GoStr) : GoStr :=
  p.dropWhile (fun c => decide (c = '/' ∨ c = '\\'))

/-- `if len(path) >= 2 && path[1] == ':' { path = path[2:] }` — the
drive-letter strip shared by both sanitizers. -/
def stripDrive : GoStr → GoStr
  | a :: b :: rest => if b = ':' then rest else a :: b :: rest
  | p => p

/-- `strings.Trim(path, ".")`: drop the dots on both ends (the code only
compares the result with the empty string). -/
def trimDots (p : GoStr) : GoStr :=
  ((p.dropWhile (fun c => decide (c = '.'))).reverse.dropWhile
    (fun c => decide (c = '.'))).reverse

/-- `strings.Contains(path, "..")`. -/
def hasDotDot : GoStr → Bool
  | a :: b :: rest => (decide (a = '.') && decide (b = '.')) || hasDotDot (b :: rest)
  | _ => false

/-- The character class `[<>:"|?*]` of both `invalidChars` regexps. -/
def isWinInvalid (c : Char) : Bool :=
  decide (c = '<' ∨ c = '>' ∨ c = ':' ∨ c = '"' ∨ c = '|' ∨ c = '?' ∨ c = '*')

/-- Replace one character of the class `[<>:"|?*]` by `_`. -/
def winReplaceChar (c : Char) : Char :=
  if isWinInvalid c then '_' else c

/-- `invalidChars.ReplaceAllString(path, "_")` for the class `[<>:"|?*]`. -/
def replaceInvalidChars (p : GoStr) : GoStr :=
  p.map winReplaceChar

/-- `strings.ReplaceAll(path, "\\", "/")`, characterwise. -/
def backslashToSlashChar (c : Char) : Char :=
  if c = '\\' then '/' else c

def backslashToSlash (p : GoStr) : GoStr :=
  p.map backslashToSlashChar

/-- The character conversion of `filepath.FromSlash` on Windows. -/
def slashToBackslashChar (c : Char) : Char :=
  if c = '/' then '\\' else c

/-- `filepath.FromSlash`: replaces `/` by the separator; identity on POSIX. -/
def fromSlash (isWindows : Bool) (p : GoStr) : GoStr :=
  if isWindows then p.map slashToBackslashChar else p

/-- `sanitizeTarPath` from main.go: drive strip, leading-separator strip,
backslash-to-slash conversion, then `[<>:"|?*]` replaced by `_`. -/
def sanitizeTarPath (path : GoStr) : GoStr :=
  replaceInvalidChars (backslashToSlash (trimLeftSlashes (stripDrive path)))

/-- `sanitizeExtractPath` from main.go: drive strip, leading-separator strip,
reject empty / all-dots / `..`-containing paths, convert to the host
separator, and on Windows replace `[<>:"|?*]` by `_`.  (The source binds the
stripped path to a local `path` variable; it is repeated here inline.) -/
def sanitizeExtractPath (isWindows : Bool) (path : GoStr) : GoStr :=
  if trimLeftSlashes (stripDrive path) = []
      ∨ trimDots (trimLeftSlashes (stripDrive path)) = [] then []
  else if hasDotDot (trimLeftSlashes (stripDrive path)) then []
  else if isWindows then
    replaceInvalidChars (fromSlash isWindows (trimLeftSlashes (stripDrive path)))
  else fromSlash isWindows (trimLeftSlashes (stripDrive path))

/-! ### Lexical path functions of `path/filepath` (POSIX rules) -/

/-- Split on a separator character (used by the model of `filepath.Clean`,
and to talk about the components of a Windows path). -/
def splitCharAux (sep : Char) : GoStr → GoStr → List GoStr
  | [], cur => [cur.reverse]
  | c :: rest, cur =>
    if c = sep then cur.reverse :: splitCharAux sep rest []
    else splitCharAux sep rest (c :: cur)

def splitChar (sep : Char) (p : GoStr) : List GoStr := splitCharAux sep p []

def splitSlash (p : GoStr) : List GoStr := splitChar '/' p

/-- One step of `filepath.Clean`'s element loop, on a reversed output stack:
empty and `.` elements are dropped, `..` pops a poppable element, is kept on
a relative path with nothing to pop, and is dropped at the root. -/
def cleanStep (rooted : Bool) (out : List GoStr) (comp : GoStr) : List GoStr :=
  if comp = [] ∨ comp = ['.'] then out
  else if comp = ['.', '.'] then
    match out with
    | [] => if rooted then [] else [comp]
    | top :: rest => if top = ['.', '.'] then comp :: top :: rest else rest
  else comp :: out

/-- Join components with `/`. -/
def joinComps : List GoStr → GoStr
  | [] => []
  | [c] => c
  | c :: rest => c ++ '/' :: joinComps rest

/-- `filepath.Clean` (POSIX). -/
def goClean (p : GoStr) : GoStr :=
  if p = [] then ['.']
  else
    let rooted := decide (p.head? = some '/')
    let out := ((splitSlash p).foldl (cleanStep rooted) []).reverse
    let s := (if rooted then ['/'] else []) ++ joinComps out
    if s = [] then ['.'] else s

/-- `filepath.Join(a, b)`: drop empty elements, join with `/`, then Clean;
the all-empty join is the empty string. -/
def goJoin (a b : GoStr) : GoStr :=
  if a = [] ∧ b = [] then []
  else if a = [] then goClean b
  else if b = [] then goClean a
  else goClean (a ++ '/' :: b)

/-- `filepath.Dir`: everything up to and including the final `/`, cleaned. -/
def goDir (p : GoStr) : GoStr :=
  goClean ((p.reverse.dropWhile (fun c => decide (¬ c = '/'))).reverse)

/-- `filepath.Base`: strip trailing slashes and keep the last element. -/
def goBase (p : GoStr) : GoStr :=
  if p = [] then ['.']
  else
    let q := (p.reverse.dropWhile (fun c => decide (c = '/'))).reverse
    if q = [] then ['/']
    else (q.reverse.takeWhile (fun c => decide (¬ c = '/'))).reverse

/-- Drop the common leading components of two component lists. -/
def dropCommon : List GoStr → List GoStr → List GoStr × List GoStr
  | a :: as, b :: bs => if a = b then dropCommon as bs else (a :: as, b :: bs)
  | as, bs => (as, bs)

/-- `filepath.Rel` on its non-error cases: clean both paths, drop the common
component prefix, and prepend one `..` per remaining base component. -/
def goRel (base targ : GoStr) : GoStr :=
  let b := goClean base
  let t := goClean targ
  if b = t then ['.']
  else
    let bs := if b = ['.'] then [] else splitSlash b
    let ts := if t = ['.'] then [] else splitSlash t
    let pq := dropCommon bs ts
    let rel := List.replicate pq.1.length ['.', '.'] ++ pq.2
    if rel = [] then ['.'] else joinComps rel

/-- `filepath.Ext`: the suffix of the last element from its final dot. -/
def goExt (p : GoStr) : GoStr :=
  let revTail := p.reverse.takeWhile (fun c => decide (¬ c = '/'))
  if '.' ∈ revTail then ((revTail.takeWhile (fun c => decide (¬ c = '.'))) ++ ['.']).reverse
  else []

/-- `strings.TrimSuffix`. -/
def trimSuffix (s suf : GoStr) : GoStr :=
  if suf.isSuffixOf s then s.take (s.length - suf.length) else s

/-! ### The packer (`compressFiles` / `addToTar`) -/

/-- A source tree rooted at some path: regular file with mode and byte
content, or directory with mode and named children (in walk order). -/
inductive FsNode where
  | file (mode : Nat) (content : List Nat)
  | dir (mode : Nat) (children : List (GoStr × FsNode))
deriving Repr

inductive EntryKind where
  | reg
  | dir
deriving DecidableEq, Repr

/-- One tar header plus payload, as written by `addToTar` and read back by
`decompressFile`.  `content` is empty for directory entries; the header size
of a regular entry is `content.length`. -/
structure TarEntry where
  name : GoStr
  kind : EntryKind
  mode : Nat
  content : List Nat
deriving DecidableEq, Repr

/-- The stored name computed inside the `filepath.Walk` callback of
`addToTar`: the walked path itself for the root, otherwise
`Join(Base(filePath), Rel(Dir(filePath), path))`; the result goes through
`sanitizeTarPath` (with `filepath.ToSlash` the identity on POSIX). -/
def tarEntryName (filePath curPath : GoStr) : GoStr :=
  if curPath = filePath then sanitizeTarPath curPath
  else sanitizeTarPath (goJoin (goBase filePath) (goRel (goDir filePath) curPath))

mutual
/-- The pre-order `filepath.Walk` of `addToTar`, emitting one entry per
visited object; `curPath` is the walked path (`Join(parent, name)` for a
child, the source argument itself for the root). -/
def walkEntry (filePath curPath : GoStr) : FsNode → List TarEntry
  | FsNode.file mode content =>
    [{ name := tarEntryName filePath curPath, kind := EntryKind.reg,
       mode := mode, content := content }]
  | FsNode.dir mode children =>
    { name := tarEntryName filePath curPath, kind := EntryKind.dir,
      mode := mode, content := [] } :: walkChildren filePath curPath children

def walkChildren (filePath curPath : GoStr) : List (GoStr × FsNode) → List TarEntry
  | [] => []
  | (childName, child) :: rest =>
    walkEntry filePath (goJoin curPath childName) child ++
      walkChildren filePath curPath rest
end

/-- `addToTar(tarWriter, filePath, &totalSize)` as the list of entries it
writes for the source rooted at `filePath` holding tree `node`. -/
def addToTar (filePath : GoStr) (node : FsNode) : List TarEntry :=
  walkEntry filePath filePath node

/-- The `totalSize` accumulation: `info.Size()` summed over non-directory
visits. -/
def totalSizeOf (entries : List TarEntry) : Nat :=
  entries.foldl
    (fun acc e => match e.kind with
      | EntryKind.reg => acc + e.content.length
      | EntryKind.dir => acc) 0

/-- Result of `compressFiles`: the container entries written through the
encoder, the `originalSize` statistic, the created output file, and the
normalized compression level handed to the encoder. -/
structure PackResult where
  entries : List TarEntry
  originalSize : Nat
  outputFile : GoStr
  level : Int
deriving Repr

/-- `compressFiles(files, outputFile, level)`, with each source path paired
with the tree found there. -/
def compressFiles (sources : List (GoStr × FsNode)) (outputFile : GoStr)
    (level : Int) : PackResult :=
  let entries := sources.foldl (fun acc s => acc ++ addToTar s.1 s.2) []
  { entries := entries, originalSize := totalSizeOf entries,
    outputFile := outputFile, level := level }

/-- The output-name defaulting of `handleCompress` (lines 102–117). -/
def defaultOutputName (files : List GoStr) (output : GoStr) : GoStr :=
  let zst : GoStr := ['.', 'z', 's', 't']
  let out1 :=
    if output = [] then
      if files.length = 1 then
        let baseName := goBase (files.headD [])
        let baseName :=
          if '.' ∈ baseName then trimSuffix baseName (goExt baseName) else baseName
        baseName ++ zst
      else ['a', 'r', 'c', 'h', 'i', 'v', 'e'] ++ zst
    else output
  if zst.isSuffixOf out1 then out1 else out1 ++ zst

/-- The compression-level defaulting of `handleCompress` (lines 120–122). -/
def normalizeLevel (level : Int) : Int :=
  if level < 1 ∨ 19 < level then 3 else level

inductive CompressOutcome where
  | configError
  | ok (result : PackResult)

/-- `handleCompress` after request decoding: the empty-source check, output
defaulting, level defaulting, then `compressFiles`.  The second component
lists the files created on disk (the output file is created by
`compressFiles` via `os.Create`; nothing is created on the ConfigError
path). -/
def handleCompress (sources : List (GoStr × FsNode)) (output : GoStr)
    (level : Int) : CompressOutcome × List GoStr :=
  if sources.length = 0 then (CompressOutcome.configError, [])
  else
    let outName := defaultOutputName (sources.map Prod.fst) output
    let res := compressFiles sources outName (normalizeLevel level)
    (CompressOutcome.ok res, [res.outputFile])

/-! ### The unpacker (`decompressFile`) -/

/-- Extraction-time disk state: extracted regular files as
`(path, bytes, mode)` (association list, most recent first), directories
explicitly created by `TypeDir` entries as `(path, mode)`, the arguments of
the per-entry parent `os.MkdirAll` calls, and `fileCount`. -/
structure ExtractState where
  files : List (GoStr × List Nat × Nat)
  dirs : List (GoStr × Nat)
  parentMk : List GoStr
  count : Nat
deriving DecidableEq, Repr

def lookupFs : List (GoStr × List Nat × Nat) → GoStr → Option (List Nat × Nat)
  | [], _ => none
  | (q, c, m) :: rest, p => if q = p then some (c, m) else lookupFs rest p

def updateFs : List (GoStr × List Nat × Nat) → GoStr → List Nat → Nat →
    List (GoStr × List Nat × Nat)
  | [], p, c, m => [(p, c, m)]
  | (q, c0, m0) :: rest, p, c, m =>
    if q = p then (q, c, m) :: rest else (q, c0, m0) :: updateFs rest p c m

/-- `os.OpenFile(target, O_CREATE|O_RDWR, mode)` followed by `io.Copy`:
a fresh file gets the payload and the stored mode; an existing file keeps
its mode and is overwritten from offset 0 WITHOUT truncation, so old bytes
beyond the new length survive. -/
def writeFileRW (fs : List (GoStr × List Nat × Nat)) (p : GoStr)
    (data : List Nat) (mode : Nat) : List (GoStr × List Nat × Nat) :=
  match lookupFs fs p with
  | some (old, oldMode) => updateFs fs p (data ++ old.drop data.length) oldMode
  | none => updateFs fs p data mode

/-- `os.MkdirAll(p, mode)` for a `TypeDir` entry: records the directory,
keeping the existing one (and its mode) if already present. -/
def addDir (dirs : List (GoStr × Nat)) (p : GoStr) (m : Nat) : List (GoStr × Nat) :=
  if p ∈ dirs.map Prod.fst then dirs else (p, m) :: dirs

/-- The target path `filepath.Join(fullOutputDir, cleanName)`. -/
def extractTarget (full : GoStr) (e : TarEntry) : GoStr :=
  goJoin full (sanitizeExtractPath false e.name)

/-- `strings.HasPrefix(targetPath, filepath.Clean(fullOutputDir) +
string(os.PathSeparator))` — the belt-and-suspenders containment check. -/
def insideRoot (full p : GoStr) : Bool :=
  (goClean full ++ ['/']).isPrefixOf p

/-- One iteration of the extraction loop of `decompressFile` (lines
315–362): sanitize the stored name, skip on the empty result, skip when the
joined target does not start with `Clean(fullOutputDir) + "/"`, otherwise
create the parent directory and dispatch on the type flag. -/
def extractEntry (full : GoStr) (st : ExtractState) (e : TarEntry) : ExtractState :=
  if sanitizeExtractPath false e.name = [] then st
  else if insideRoot full (extractTarget full e) = false then st
  else
    match e.kind with
    | EntryKind.dir =>
      { st with parentMk := goDir (extractTarget full e) :: st.parentMk,
                dirs := addDir st.dirs (extractTarget full e) e.mode }
    | EntryKind.reg =>
      { st with parentMk := goDir (extractTarget full e) :: st.parentMk,
                files := writeFileRW st.files (extractTarget full e) e.content e.mode,
                count := st.count + 1 }

structure DecompressResult where
  fileCount : Nat
  outputPath : GoStr
  state : ExtractState
deriving DecidableEq, Repr

/-- `decompressFile(archive, outputDir)`: resolve the destination under the
working directory, clear it (`os.RemoveAll`) and recreate it
(`os.MkdirAll(fullOutputDir, 0755)`), then run the extraction loop over the
container entries and return `fileCount` and the resolved root. -/
def decompressFile (cwd outputDir : GoStr) (entries : List TarEntry) :
    DecompressResult :=
  let full := goJoin cwd outputDir
  let init : ExtractState :=
    { files := [], dirs := [(full, 493)], parentMk := [], count := 0 }
  let fin := entries.foldl (extractEntry full) init
  { fileCount := fin.count, outputPath := full, state := fin }

/-- An entry the extraction loop fully processes as a regular file: the
sanitizer keeps it, the containment check passes, and its type flag is
`TypeReg`. -/
abbrev entryAcceptedReg (full : GoStr) (e : TarEntry) : Prop :=
  sanitizeExtractPath false e.name ≠ []
  ∧ insideRoot full (extractTarget full e) = true
  ∧ e.kind = EntryKind.reg

/-- An entry one of the two `continue` guards of the loop skips. -/
abbrev entryRejected (full : GoStr) (e : TarEntry) : Prop :=
  sanitizeExtractPath false e.name = []
  ∨ insideRoot full (extractTarget full e) = false

/-! ### Concrete inputs used by counterexamples and witnesses -/

def wCwd : GoStr := (r"/w").toList
def wOut : GoStr := (r"out").toList
def nameTraversal : GoStr := (r"../../etc/passwd").toList
def nameAbsolute : GoStr := (r"/etc/passwd").toList
def pWOutEtcPasswd : GoStr := (r"/w/out/etc/passwd").toList
def nameCWin : GoStr := (r"C:\Windows\x.txt").toList
def winBack : GoStr := (r"Windows\x.txt").toList
def winFwd : GoStr := (r"Windows/x.txt").toList
def pWOutWinBack : GoStr := (r"/w/out/Windows\x.txt").toList
def pWOutWinFwd : GoStr := (r"/w/out/Windows/x.txt").toList
def winComp : GoStr := (r"Windows").toList
def xtxtComp : GoStr := (r"x.txt").toList
def nameAStar : GoStr := (r"a:b*c.txt").toList
def bUnderC : GoStr := (r"b_c.txt").toList
def bStarC : GoStr := (r"b*c.txt").toList
def aUnderBUnderC : GoStr := (r"a_b_c.txt").toList
def pWOutBStar : GoStr := (r"/w/out/b*c.txt").toList
def nameF : GoStr := (r"f").toList
def pWOutF : GoStr := (r"/w/out/f").toList
def nameSlashColon : GoStr := (r"/a:b").toList
def aColonB : GoStr := (r"a:b").toList
def dStr : GoStr := (r"d").toList
def xStr : GoStr := (r"x").toList
def ddxStr : GoStr := (r"d/d/x").toList
def dxStr : GoStr := (r"d/x").toList
def pWOutDDX : GoStr := (r"/w/out/d/d/x").toList
def pWOutDX : GoStr := (r"/w/out/d/x").toList
def abTxtStr : GoStr := (r"a/b.txt").toList
def bTxtStr : GoStr := (r"b.txt").toList
def nameDotDotX : GoStr := (r"../x").toList
def nameA : GoStr := (r"a").toList
def nameB : GoStr := (r"b").toList
def pWOutA : GoStr := (r"/w/out/a").toList

/-- The directory source `d` containing the single file `x` (content byte
97, mode 0644), used to exhibit the base-name doubling of `addToTar`. -/
def treeD : FsNode := FsNode.dir 493 [(xStr, FsNode.file 420 [97])]

def entryAbs : TarEntry :=
  { name := nameAbsolute, kind := EntryKind.reg, mode := 420, content := [120] }

def entryCWin : TarEntry :=
  { name := nameCWin, kind := EntryKind.reg, mode := 420, content := [9] }

def entryAStar : TarEntry :=
  { name := nameAStar, kind := EntryKind.reg, mode := 420, content := [7] }

def entryHello : TarEntry :=
  { name := nameF, kind := EntryKind.reg, mode := 420,
    content := [104, 101, 108, 108, 111] }

def entryHi : TarEntry :=
  { name := nameF, kind := EntryKind.reg, mode := 384, content := [104, 105] }

def entryBadTrav : TarEntry :=
  { name := nameDotDotX, kind := EntryKind.reg, mode := 420, content := [1] }

def entryA : TarEntry :=
  { name := nameA, kind := EntryKind.reg, mode := 420, content := [2] }

def entryB : TarEntry :=
  { name := nameB, kind := EntryKind.reg, mode := 420, content := [3] }

end ZstdComp

namespace ZstdComp

/-! ## Helper lemmas -/

theorem hasDotDot_cons {a : Char} (t : GoStr) (ha : ¬ a = '.') :
    hasDotDot (a :: t) = hasDotDot t := by
  cases t with
  | nil => rfl
  | cons b r => simp [hasDotDot, ha]

theorem hasDotDot_stripDrive {p : GoStr} (h : hasDotDot p = true) :
    hasDotDot (stripDrive p) = true := by
  cases p with
  | nil => exact h
  | cons a t =>
    cases t with
    | nil => exact h
    | cons b r =>
      by_cases hb : b = ':'
      · subst hb
        have e1 : hasDotDot (a :: ':' :: r)
            = ((decide (a = '.') && decide ((':' : Char) = '.')) || hasDotDot (':' :: r)) := rfl
        rw [e1, show (decide ((':' : Char) = '.')) = false from rfl] at h
        simp only [Bool.and_false, Bool.false_or] at h
        rw [hasDotDot_cons r (by decide)] at h
        simpa [stripDrive] using h
      · simpa [stripDrive, hb] using h

theorem hasDotDot_trimLeftSlashes {p : GoStr} (h : hasDotDot p = true) :
    hasDotDot (trimLeftSlashes p) = true := by
  induction p with
  | nil => exact h
  | cons a t ih =>
    by_cases hs : (a = '/' ∨ a = '\\')
    · have ha : ¬ a = '.' := by rcases hs with h1 | h1 <;> subst h1 <;> decide
      have h2 : hasDotDot t = true := by rwa [hasDotDot_cons t ha] at h
      have h3 : trimLeftSlashes (a :: t) = trimLeftSlashes t := by
        simp [trimLeftSlashes, List.dropWhile_cons, hs]
      rw [h3]; exact ih h2
    · have h3 : trimLeftSlashes (a :: t) = a :: t := by
        simp [trimLeftSlashes, List.dropWhile_cons, hs]
      rw [h3]; exact h

theorem sanitizeExtractPath_eq_nil_of_hasDotDot (isW : Bool) {name : GoStr}
    (h : hasDotDot name = true) : sanitizeExtractPath isW name = [] := by
  have hp : hasDotDot (trimLeftSlashes (stripDrive name)) = true :=
    hasDotDot_trimLeftSlashes (hasDotDot_stripDrive h)
  unfold sanitizeExtractPath
  by_cases h1 : (trimLeftSlashes (stripDrive name) = []
      ∨ trimDots (trimLeftSlashes (stripDrive name)) = [])
  · rw [if_pos h1]
  · rw [if_neg h1, if_pos hp]

theorem extractEntry_of_rejected {full : GoStr} {e : TarEntry}
    (h : entryRejected full e) (st : ExtractState) :
    extractEntry full st e = st := by
  rcases h with h | h
  · simp [extractEntry, h]
  · by_cases h0 : sanitizeExtractPath false e.name = []
    · simp [extractEntry, h0]
    · simp [extractEntry, h0, h]

theorem extractEntry_accepted_reg {full : GoStr} {e : TarEntry}
    (h : entryAcceptedReg full e) (st : ExtractState) :
    extractEntry full st e =
      { st with parentMk := goDir (extractTarget full e) :: st.parentMk,
                files := writeFileRW st.files (extractTarget full e) e.content e.mode,
                count := st.count + 1 } := by
  obtain ⟨h0, h1, hk⟩ := h
  simp [extractEntry, h0, h1, hk]

theorem mem_updateFs_fst {p : GoStr} {c : List Nat} {m : Nat} :
    ∀ (fs : List (GoStr × List Nat × Nat)) (pr : GoStr × List Nat × Nat),
      pr ∈ updateFs fs p c m → pr.1 = p ∨ pr.1 ∈ fs.map Prod.fst := by
  intro fs
  induction fs with
  | nil =>
    intro pr h
    simp only [updateFs, List.mem_singleton] at h
    subst h; left; rfl
  | cons a rest ih =>
    intro pr h
    obtain ⟨q, c0, m0⟩ := a
    simp only [updateFs] at h
    by_cases hq : q = p
    · rw [if_pos hq] at h
      rcases List.mem_cons.mp h with h1 | h1
      · subst h1; left; exact hq
      · right
        exact List.mem_map.mpr ⟨pr, List.mem_cons_of_mem _ h1, rfl⟩
    · rw [if_neg hq] at h
      rcases List.mem_cons.mp h with h1 | h1
      · subst h1; right
        exact List.mem_map.mpr ⟨(q, c0, m0), List.mem_cons_self _ _, rfl⟩
      · rcases ih pr h1 with h2 | h2
        · left; exact h2
        · right
          rcases List.mem_map.mp h2 with ⟨x, hx, he⟩
          exact List.mem_map.mpr ⟨x, List.mem_cons_of_mem _ hx, he⟩

theorem mem_writeFileRW_fst {fs : List (GoStr × List Nat × Nat)} {p : GoStr}
    {data : List Nat} {m : Nat} {pr : GoStr × List Nat × Nat}
    (h : pr ∈ writeFileRW fs p data m) : pr.1 = p ∨ pr.1 ∈ fs.map Prod.fst := by
  unfold writeFileRW at h
  split at h
  · exact mem_updateFs_fst fs pr h
  · exact mem_updateFs_fst fs pr h

theorem mem_addDir {dirs : List (GoStr × Nat)} {p : GoStr} {m : Nat}
    {d : GoStr × Nat} (h : d ∈ addDir dirs p m) : d = (p, m) ∨ d ∈ dirs := by
  unfold addDir at h
  split at h
  · right; exact h
  · rcases List.mem_cons.mp h with h1 | h1
    · left; exact h1
    · right; exact h1

end ZstdComp

namespace ZstdComp

/-! ## Confinement and counting of the extraction loop -/

theorem extractEntry_confined {full root0 : GoStr} {st : ExtractState} (e : TarEntry)
    (hf : ∀ pr ∈ st.files, insideRoot full pr.1 = true)
    (hd : ∀ d ∈ st.dirs, insideRoot full d.1 = true ∨ d.1 = root0) :
    (∀ pr ∈ (extractEntry full st e).files, insideRoot full pr.1 = true)
    ∧ (∀ d ∈ (extractEntry full st e).dirs, insideRoot full d.1 = true ∨ d.1 = root0) := by
  by_cases h0 : sanitizeExtractPath false e.name = []
  · rw [extractEntry_of_rejected (Or.inl h0) st]; exact ⟨hf, hd⟩
  · by_cases h1 : insideRoot full (extractTarget full e) = false
    · rw [extractEntry_of_rejected (Or.inr h1) st]; exact ⟨hf, hd⟩
    · have htrue : insideRoot full (extractTarget full e) = true := by
        cases hx : insideRoot full (extractTarget full e)
        · exact absurd hx h1
        · rfl
      unfold extractEntry
      rw [if_neg h0, if_neg (by rw [htrue]; simp)]
      cases hk : e.kind
      · -- TypeReg
        constructor
        · intro pr hpr
          rcases mem_writeFileRW_fst hpr with h2 | h2
          · rw [h2]; exact htrue
          · rcases List.mem_map.mp h2 with ⟨x, hx, he⟩
            rw [← he]; exact hf x hx
        · intro d hdm
          exact hd d hdm
      · -- TypeDir
        constructor
        · intro pr hpr
          exact hf pr hpr
        · intro d hdm
          rcases mem_addDir hdm with h2 | h2
          · rw [h2]; left; exact htrue
          · exact hd d h2

theorem extractFold_confined {full root0 : GoStr} :
    ∀ (entries : List TarEntry) (st : ExtractState),
      (∀ pr ∈ st.files, insideRoot full pr.1 = true) →
      (∀ d ∈ st.dirs, insideRoot full d.1 = true ∨ d.1 = root0) →
      (∀ pr ∈ (entries.foldl (extractEntry full) st).files, insideRoot full pr.1 = true)
      ∧ (∀ d ∈ (entries.foldl (extractEntry full) st).dirs,
          insideRoot full d.1 = true ∨ d.1 = root0) := by
  intro entries
  induction entries with
  | nil => intro st hf hd; exact ⟨hf, hd⟩
  | cons e rest ih =>
    intro st hf hd
    rw [List.foldl_cons]
    obtain ⟨hf2, hd2⟩ := extractEntry_confined e hf hd
    exact ih _ hf2 hd2

theorem extractFold_count {full : GoStr} :
    ∀ (entries : List TarEntry) (st : ExtractState),
      (∀ e ∈ entries, entryAcceptedReg full e) →
      (entries.foldl (extractEntry full) st).count = st.count + entries.length := by
  intro entries
  induction entries with
  | nil => intro st _; simp
  | cons e rest ih =>
    intro st h
    rw [List.foldl_cons, extractEntry_accepted_reg (h e (List.mem_cons_self e rest)) st,
      ih _ (fun x hx => h x (List.mem_cons_of_mem e hx))]
    simp only [List.length_cons]
    omega

theorem decompressFile_state_eq (cwd outputDir : GoStr) (entries : List TarEntry) :
    (decompressFile cwd outputDir entries).state =
      entries.foldl (extractEntry (goJoin cwd outputDir))
        { files := [], dirs := [(goJoin cwd outputDir, 493)], parentMk := [], count := 0 } :=
  rfl

theorem decompressFile_count_eq (cwd outputDir : GoStr) (entries : List TarEntry) :
    (decompressFile cwd outputDir entries).fileCount =
      (entries.foldl (extractEntry (goJoin cwd outputDir))
        { files := [], dirs := [(goJoin cwd outputDir, 493)], parentMk := [], count := 0 }).count :=
  rfl

theorem decompressFile_files_confined (cwd outputDir : GoStr) (entries : List TarEntry) :
    ∀ pr ∈ (decompressFile cwd outputDir entries).state.files,
      insideRoot (goJoin cwd outputDir) pr.1 = true := by
  rw [decompressFile_state_eq]
  exact (@extractFold_confined (goJoin cwd outputDir) (goJoin cwd outputDir) entries _
    (by intro pr h; exact absurd h (List.not_mem_nil pr))
    (by
      intro d h
      rw [List.mem_singleton] at h
      subst h
      right
      rfl)).1

theorem decompressFile_dirs_confined (cwd outputDir : GoStr) (entries : List TarEntry) :
    ∀ d ∈ (decompressFile cwd outputDir entries).state.dirs,
      insideRoot (goJoin cwd outputDir) d.1 = true ∨ d.1 = goJoin cwd outputDir := by
  rw [decompressFile_state_eq]
  exact (@extractFold_confined (goJoin cwd outputDir) (goJoin cwd outputDir) entries _
    (by intro pr h; exact absurd h (List.not_mem_nil pr))
    (by
      intro d h
      rw [List.mem_singleton] at h
      subst h
      right
      rfl)).2

end ZstdComp

namespace ZstdComp

/-! ## Structure of a kept `sanitizeExtractPath` result -/

theorem sanitizeExtractPath_of_kept (isW : Bool) (p : GoStr)
    (h1 : ¬ (trimLeftSlashes (stripDrive p) = []
        ∨ trimDots (trimLeftSlashes (stripDrive p)) = []))
    (h2 : ¬ hasDotDot (trimLeftSlashes (stripDrive p)) = true) :
    sanitizeExtractPath isW p =
      (if isW then replaceInvalidChars (fromSlash isW (trimLeftSlashes (stripDrive p)))
       else fromSlash isW (trimLeftSlashes (stripDrive p))) := by
  unfold sanitizeExtractPath
  rw [if_neg h1, if_neg h2]

theorem hasDotDot_map {f : Char → Char} (hf : ∀ c, (f c = '.') ↔ (c = '.')) :
    ∀ (l : GoStr), hasDotDot (l.map f) = hasDotDot l := by
  intro l
  induction l with
  | nil => rfl
  | cons a t ih =>
    cases t with
    | nil => rfl
    | cons b r =>
      rw [List.map_cons, List.map_cons]
      have e1 : hasDotDot (f a :: f b :: r.map f)
          = ((decide (f a = '.') && decide (f b = '.')) || hasDotDot (f b :: r.map f)) := rfl
      have e2 : hasDotDot (a :: b :: r)
          = ((decide (a = '.') && decide (b = '.')) || hasDotDot (b :: r)) := rfl
      have d1 : decide (f a = '.') = decide (a = '.') := by
        rw [decide_eq_decide]; exact hf a
      have d2 : decide (f b = '.') = decide (b = '.') := by
        rw [decide_eq_decide]; exact hf b
      have e3 : hasDotDot (f b :: r.map f) = hasDotDot (b :: r) := by
        have h4 := ih
        rwa [List.map_cons] at h4
      rw [e1, e2, d1, d2, e3]

theorem winChar_dot_iff (c : Char) :
    (winReplaceChar (slashToBackslashChar c) = '.') ↔ (c = '.') := by
  by_cases h1 : c = '/'
  · subst h1; decide
  · rw [slashToBackslashChar, if_neg h1]
    by_cases h2 : isWinInvalid c = true
    · rw [winReplaceChar, if_pos h2]
      have hc : ¬ c = '.' := by
        intro h3
        subst h3
        exact absurd h2 (by decide)
      exact iff_of_false (by decide) hc
    · rw [winReplaceChar, if_neg h2]

theorem head_dropWhile_not {α : Type} (f : α → Bool) (l : List α) {c : α}
    (h : (l.dropWhile f).head? = some c) : f c = false := by
  induction l with
  | nil => simp [List.dropWhile] at h
  | cons a t ih =>
    rw [List.dropWhile_cons] at h
    by_cases hf : f a
    · rw [if_pos hf] at h; exact ih h
    · rw [if_neg hf] at h
      simp only [List.head?_cons, Option.some_inj] at h
      subst h
      cases hb : f a
      · rfl
      · exact absurd hb hf

theorem colon_not_mem_replaceInvalidChars (l : GoStr) : ':' ∉ replaceInvalidChars l := by
  intro h
  rw [replaceInvalidChars, List.mem_map] at h
  obtain ⟨x, _, he⟩ := h
  by_cases hi : isWinInvalid x = true
  · rw [winReplaceChar, if_pos hi] at he
    exact absurd he (by decide)
  · rw [winReplaceChar, if_neg hi] at he
    subst he
    exact hi (by decide)

end ZstdComp

namespace ZstdComp

/-! ## Claim theorems -/

/-- C1 (amended).  Every container entry whose stored path contains a `..`
substring (such as `../../etc/passwd` or `..\\..\\x`) is skipped entirely by
`decompressFile`: the sanitizer maps it to the empty string, the loop
iteration leaves the state unchanged, so it appears nowhere on disk and is
not counted.  Moreover every file and every directory an entry writes lies
strictly under the resolved destination root (has `Clean(root) + "/"` as a
prefix), the root itself apart.  (The original claim additionally said
absolute paths are skipped; they are not — see the counterexample — they
are merely relocated inside the root.) -/
theorem c1_traversal_confinement :
    (∀ (isW : Bool) (name : GoStr), hasDotDot name = true →
        sanitizeExtractPath isW name = [])
    ∧ (∀ (full : GoStr) (st : ExtractState) (e : TarEntry),
        hasDotDot e.name = true → extractEntry full st e = st)
    ∧ (∀ (cwd outputDir : GoStr) (entries : List TarEntry),
        (∀ pr ∈ (decompressFile cwd outputDir entries).state.files,
            insideRoot (goJoin cwd outputDir) pr.1 = true)
        ∧ (∀ d ∈ (decompressFile cwd outputDir entries).state.dirs,
            insideRoot (goJoin cwd outputDir) d.1 = true ∨ d.1 = goJoin cwd outputDir)) := by
  refine ⟨fun isW name h => sanitizeExtractPath_eq_nil_of_hasDotDot isW h,
    fun full st e h =>
      extractEntry_of_rejected
        (Or.inl (sanitizeExtractPath_eq_nil_of_hasDotDot false h)) st,
    fun cwd outputDir entries =>
      ⟨decompressFile_files_confined cwd outputDir entries,
       decompressFile_dirs_confined cwd outputDir entries⟩⟩

/-- Witness for C1 at concrete inputs: the traversal name `../../etc/passwd`
sanitizes to nothing, the entry `../x` leaves the loop state unchanged, and
the one file extracted from a well-formed singleton archive lies under the
root `/w/out`. -/
theorem c1_traversal_confinement_witness :
    sanitizeExtractPath false nameTraversal = []
    ∧ extractEntry (goJoin wCwd wOut)
        { files := [], dirs := [], parentMk := [], count := 0 } entryBadTrav
      = { files := [], dirs := [], parentMk := [], count := 0 }
    ∧ insideRoot (goJoin wCwd wOut) pWOutA = true :=
  ⟨c1_traversal_confinement.1 false nameTraversal (by decide),
   c1_traversal_confinement.2.1 (goJoin wCwd wOut) _ entryBadTrav (by decide),
   (c1_traversal_confinement.2.2 wCwd wOut [entryA]).1 (pWOutA, [2], 420) (by decide)⟩

/-- C1 counterexample.  The absolute-path entry `/etc/passwd` is NOT
skipped, contrary to the claim: `decompressFile` strips the leading slash,
extracts it to `/w/out/etc/passwd` (it does appear on disk), and counts it
in `extractedFileCount`. -/
theorem c1_absolute_path_not_skipped :
    (decompressFile wCwd wOut [entryAbs]).fileCount = 1
    ∧ lookupFs (decompressFile wCwd wOut [entryAbs]).state.files pWOutEtcPasswd
        = some ([120], 420) := by decide

/-- C9 (amended).  `sanitizeExtractPath` returns either the empty string or
a non-empty path that contains no `..` substring and does not begin with a
path separator; on Windows the result additionally contains no `:` at all
(so no drive-letter prefix).  On POSIX a drive-letter-shaped prefix CAN
survive (see the counterexample), which is the one part of the original
claim that fails.  Combined with the subsequent prefix check, every file
path `decompressFile` writes starts with the resolved destination root
followed by a separator. -/
theorem c9_sanitize_invariants :
    (∀ (isW : Bool) (p : GoStr),
        sanitizeExtractPath isW p = []
        ∨ (sanitizeExtractPath isW p ≠ []
           ∧ hasDotDot (sanitizeExtractPath isW p) = false
           ∧ (∀ c, (sanitizeExtractPath isW p).head? = some c → ¬ (c = '/' ∨ c = '\\'))
           ∧ (isW = true → ':' ∉ sanitizeExtractPath isW p)))
    ∧ (∀ (cwd outputDir : GoStr) (entries : List TarEntry),
        ∀ pr ∈ (decompressFile cwd outputDir entries).state.files,
          insideRoot (goJoin cwd outputDir) pr.1 = true) := by
  constructor
  · intro isW p
    by_cases h1 : (trimLeftSlashes (stripDrive p) = []
        ∨ trimDots (trimLeftSlashes (stripDrive p)) = [])
    · left; unfold sanitizeExtractPath; rw [if_pos h1]
    · by_cases h2 : hasDotDot (trimLeftSlashes (stripDrive p)) = true
      · left; unfold sanitizeExtractPath; rw [if_neg h1, if_pos h2]
      · right
        have hkept := sanitizeExtractPath_of_kept isW p h1 h2
        push_neg at h1
        obtain ⟨h1a, _⟩ := h1
        have hdd0 : hasDotDot (trimLeftSlashes (stripDrive p)) = false := by
          cases hx : hasDotDot (trimLeftSlashes (stripDrive p))
          · rfl
          · exact absurd hx h2
        cases isW with
        | false =>
          have hres : sanitizeExtractPath false p = trimLeftSlashes (stripDrive p) := by
            rw [hkept]
            simp [fromSlash]
          refine ⟨?_, ?_, ?_, ?_⟩
          · rw [hres]; exact h1a
          · rw [hres]; exact hdd0
          · intro c hc hcs
            rw [hres] at hc
            unfold trimLeftSlashes at hc
            have hf := head_dropWhile_not _ _ hc
            exact absurd hcs (of_decide_eq_false hf)
          · intro hW; exact absurd hW (by decide)
        | true =>
          have hres : sanitizeExtractPath true p
              = (trimLeftSlashes (stripDrive p)).map
                  (winReplaceChar ∘ slashToBackslashChar) := by
            rw [hkept]
            unfold replaceInvalidChars fromSlash
            rw [if_pos rfl, if_pos rfl, List.map_map]
          have hcomp : ∀ c, ((winReplaceChar ∘ slashToBackslashChar) c = '.') ↔ (c = '.') :=
            fun c => winChar_dot_iff c
          refine ⟨?_, ?_, ?_, ?_⟩
          · rw [hres]
            intro hnil
            rw [List.map_eq_nil_iff] at hnil
            exact h1a hnil
          · rw [hres, hasDotDot_map hcomp]
            exact hdd0
          · intro c hc hcs
            rw [hres, List.head?_map] at hc
            rcases Option.map_eq_some'.mp hc with ⟨c0, hc0, hce⟩
            unfold trimLeftSlashes at hc0
            have hf := head_dropWhile_not _ _ hc0
            have hns : ¬ (c0 = '/' ∨ c0 = '\\') := of_decide_eq_false hf
            subst hce
            by_cases h0 : c0 = '/'
            · exact hns (Or.inl h0)
            · rw [Function.comp, slashToBackslashChar, if_neg h0] at hcs
              by_cases hi : isWinInvalid c0 = true
              · rw [winReplaceChar, if_pos hi] at hcs
                rcases hcs with h | h <;> exact absurd h (by decide)
              · rw [winReplaceChar, if_neg hi] at hcs
                exact hns hcs
          · intro _
            rw [hres, ← List.map_map]
            exact colon_not_mem_replaceInvalidChars _
  · exact decompressFile_files_confined

/-- Witness for C9 at concrete inputs: the kept result for the entry name
`a` has the stated head property, and a concretely extracted file path
starts with the destination root. -/
theorem c9_sanitize_invariants_witness :
    (¬ (('a' : Char) = '/' ∨ ('a' : Char) = '\\'))
    ∧ insideRoot (goJoin wCwd wOut) pWOutA = true :=
  ⟨((c9_sanitize_invariants.1 false nameA).resolve_left (by decide)).2.2.1 'a' (by decide),
   c9_sanitize_invariants.2 wCwd wOut [entryA] (pWOutA, [2], 420) (by decide)⟩

/-- C9 counterexample.  For the input `/a:b` the sanitizer (POSIX) returns
`a:b`, whose second character is `:`: the result still carries a
drive-letter-shaped prefix (the function's own drive test would strip it),
refuting the no-drive-letter-prefix part of the claim. -/
theorem c9_drive_prefix_reappears :
    sanitizeExtractPath false nameSlashColon = aColonB
    ∧ stripDrive aColonB ≠ aColonB := by decide

end ZstdComp

namespace ZstdComp

/-- C3.  For every archive consisting of one entry whose path fails
sanitization or containment followed by any list of entries the loop fully
accepts as regular files, `decompressFile` skips the bad entry without
aborting (its loop iteration is the identity on the state), extracts
exactly `rest.length` files, and returns that count — under-reporting the
skipped entry by one.  (The model's filesystem operations cannot fail, so
the run always returns normally, matching the "success result" of the
claim.) -/
theorem c3_bad_entry_skipped_rest_extracted :
    ∀ (cwd outputDir : GoStr) (bad : TarEntry) (rest : List TarEntry),
      entryRejected (goJoin cwd outputDir) bad →
      (∀ e ∈ rest, entryAcceptedReg (goJoin cwd outputDir) e) →
      (∀ st, extractEntry (goJoin cwd outputDir) st bad = st)
      ∧ (decompressFile cwd outputDir (bad :: rest)).fileCount = rest.length := by
  intro cwd outputDir bad rest hbad hrest
  constructor
  · intro st
    exact extractEntry_of_rejected hbad st
  · rw [decompressFile_count_eq, List.foldl_cons, extractEntry_of_rejected hbad,
      extractFold_count rest _ hrest]
    simp

/-- Witness for C3: the archive `[../x, a, b]` under destination `/w/out`
extracts exactly the two good entries. -/
theorem c3_bad_entry_skipped_rest_extracted_witness :
    (decompressFile wCwd wOut [entryBadTrav, entryA, entryB]).fileCount = 2 :=
  (c3_bad_entry_skipped_rest_extracted wCwd wOut entryBadTrav [entryA, entryB]
    (by decide) (by decide)).2

/-- C2 (code bug).  Round-tripping the directory source `d` containing the
single file `x` does NOT reproduce the relative structure: `addToTar`
stores the descendant as `d/d/x` (the root base name is doubled by
`Join(Base(filePath), Rel(Dir(filePath), path))`), so extraction under the
fresh root `/w/out` creates `/w/out/d/d/x` and nothing at `/w/out/d/x`. -/
theorem c2_roundtrip_doubles_root_dir :
    ((addToTar dStr treeD).map (fun e => e.name)) = [dStr, ddxStr]
    ∧ lookupFs (decompressFile wCwd wOut (addToTar dStr treeD)).state.files pWOutDDX
        = some ([97], 420)
    ∧ lookupFs (decompressFile wCwd wOut (addToTar dStr treeD)).state.files pWOutDX
        = none
    ∧ ddxStr ≠ dxStr := by decide

/-- C4 (code bug).  `decompressFile` opens regular targets with
`O_CREATE|O_RDWR` but without `O_TRUNC`, so a later duplicate entry does
not determine the final content: after extracting `f := "hello"` then
`f := "hi"`, the file holds bytes 104 105 108 108 111 ("hillo"), not the
last entry's payload, and it keeps the first entry's mode. -/
theorem c4_overlay_write_no_truncate :
    (decompressFile wCwd wOut [entryHello, entryHi]).fileCount = 2
    ∧ lookupFs (decompressFile wCwd wOut [entryHello, entryHi]).state.files pWOutF
        = some ([104, 105, 108, 108, 111], 420)
    ∧ ([104, 105, 108, 108, 111] : List Nat) ≠ entryHi.content := by decide

/-- C5 (amended).  The entry `C:\\Windows\\x.txt` has its drive letter
stripped and is neither rejected nor fatal, on both platforms the sanitizer
yields `Windows\\x.txt`.  On a Windows host `\\` is the separator, so its
components are `Windows` and `x.txt` and the entry extracts to
`<root>\\Windows\\x.txt` as the claim says; on a POSIX host the backslash
survives as an ordinary character, so the single file
`/w/out/Windows\\x.txt` (one component) is created and counted. -/
theorem c5_drive_letter_stripped :
    sanitizeExtractPath true nameCWin = winBack
    ∧ splitChar '\\' winBack = [winComp, xtxtComp]
    ∧ sanitizeExtractPath false nameCWin = winBack
    ∧ (decompressFile wCwd wOut [entryCWin]).fileCount = 1
    ∧ lookupFs (decompressFile wCwd wOut [entryCWin]).state.files pWOutWinBack
        = some ([9], 420) := by decide

/-- C5 counterexample.  On the POSIX host the claim fails: the sanitized
name keeps a literal backslash, so nothing is created at
`/w/out/Windows/x.txt`. -/
theorem c5_posix_backslash_not_separator :
    winBack ≠ winFwd
    ∧ sanitizeExtractPath false nameCWin = winBack
    ∧ lookupFs (decompressFile wCwd wOut [entryCWin]).state.files pWOutWinFwd = none := by
  decide

/-- C6 (code bug).  The stored container paths of `addToTar` are not
`<base-name-of-root>/<relative>`: a single-file root given as `a/b.txt` is
stored under its full path `a/b.txt` (not the base name `b.txt`), and the
descendant `x` of the directory root `d` is stored as `d/d/x` (the base
name is doubled), not `d/x`. -/
theorem c6_stored_path_not_base_relative :
    ((addToTar abTxtStr (FsNode.file 420 [104])).map (fun e => e.name)) = [abTxtStr]
    ∧ abTxtStr ≠ bTxtStr
    ∧ ((addToTar dStr treeD).map (fun e => e.name)) = [dStr, ddxStr]
    ∧ ddxStr ≠ dxStr := by decide

/-- C7.  `handleCompress` with an empty source list returns the
ConfigError outcome ("No files selected") immediately: no output name is
computed, `compressFiles` is never reached, and the list of files created
on disk is empty. -/
theorem c7_empty_sources_config_error :
    ∀ (output : GoStr) (level : Int),
      handleCompress [] output level = (CompressOutcome.configError, []) := by
  intro output level
  rfl

/-- C8 (amended).  The entry `a:b*c.txt` is extracted, not skipped and not
fatal, but under `b_c.txt` on Windows: the `a:` prefix matches the
drive-letter test and is stripped first, and only then is the illegal `*`
replaced by `_`.  On POSIX (no restrictive charset branch) it extracts as
`b*c.txt` — one file, counted. -/
theorem c8_sanitized_name_extracted :
    sanitizeExtractPath true nameAStar = bUnderC
    ∧ sanitizeExtractPath false nameAStar = bStarC
    ∧ (decompressFile wCwd wOut [entryAStar]).fileCount = 1
    ∧ lookupFs (decompressFile wCwd wOut [entryAStar]).state.files pWOutBStar
        = some ([7], 420) := by decide

/-- C8 counterexample.  The claim's expected name `a_b_c.txt` is wrong: on
Windows the sanitizer produces `b_c.txt` because `a:` is consumed as a
drive letter before character replacement. -/
theorem c8_first_segment_treated_as_drive :
    sanitizeExtractPath true nameAStar = bUnderC
    ∧ bUnderC ≠ aUnderBUnderC := by decide

end ZstdComp
